import Mathlib

/-!
Verification of the valora composition engine against its specification.

The data model and operations below are a shallow embedding of
`rainier/src/lib.rs` (Composition, Element, RenderGate, run) and, where the
rasterizer sources are referenced, of the scanline rasterizer described in the
specification. `f32` coordinates and colors are embedded as `ℚ`; the lyon
path `Builder` is embedded as the list of path commands issued to it, in
order; the reference-counted `Shader` handle is embedded as an opaque
numeric handle (clones share the handle value).
-/

namespace Valora

/-- 2D vector, embedding of `V2` (`Matrix<f32, U2, U1, ...>`). -/
structure V2 where
  x : ℚ
  y : ℚ
deriving DecidableEq, Repr

/-- 4D vector, embedding of `V4`; used for RGBA colors. -/
structure V4 where
  x : ℚ
  y : ℚ
  z : ℚ
  w : ℚ
deriving DecidableEq, Repr

/-- Embedding of a shader handle (`Shader` is reference counted in the
source; a clone shares the same underlying program, so a handle is
represented by its identity). -/
abbrev Shader := Nat

/-- One command recorded by the lyon path `Builder`: `move_to`, `line_to`,
`quadratic_bezier_to`, `cubic_bezier_to` or `close`. -/
inductive Verb where
  | moveTo (p : V2)
  | lineTo (p : V2)
  | quadTo (ctrl p : V2)
  | cubicTo (ctrl0 ctrl1 p : V2)
  | closeVerb
deriving DecidableEq, Repr

/-- Embedding of the lyon `Builder`: the ordered list of commands issued. -/
abbrev Builder := List Verb

/-- Embedding of `raster::Method`: `Fill` or `Stroke(thickness)`. -/
inductive Method where
  | Fill
  | Stroke (thickness : ℚ)
deriving DecidableEq, Repr

/-- Embedding of `Element`: `{ path, color, shader, raster_method }`. -/
structure Element where
  path : Builder
  color : V4
  shader : Shader
  raster_method : Method
deriving DecidableEq, Repr

/-- Embedding of `Composition`:
`{ path, shader, color, stroke_thickness, scale, elements }`. -/
structure Composition where
  path : Builder
  shader : Shader
  color : V4
  stroke_thickness : ℚ
  scale : ℚ
  elements : List Element
deriving DecidableEq, Repr

/-- `Composition::new(default_shader)`: empty path, the given shader, color
`(1,1,1,1)`, scale `1`, stroke thickness `1`, empty element list. -/
def Composition.new (default_shader : Shader) : Composition :=
  { path := []
    shader := default_shader
    color := ⟨1, 1, 1, 1⟩
    stroke_thickness := 1
    scale := 1
    elements := [] }

/-- `Composition::set_scale`. -/
def Composition.set_scale (c : Composition) (scale : ℚ) : Composition :=
  { c with scale := scale }

/-- `Composition::move_to`: replaces the builder with a fresh one, then
issues `move_to(dest * scale)`. -/
def Composition.move_to (c : Composition) (dest : V2) : Composition :=
  { c with path := [Verb.moveTo ⟨dest.x * c.scale, dest.y * c.scale⟩] }

/-- `Composition::line_to`: issues `line_to(dest * scale)`. -/
def Composition.line_to (c : Composition) (dest : V2) : Composition :=
  { c with path := c.path ++ [Verb.lineTo ⟨dest.x * c.scale, dest.y * c.scale⟩] }

/-- `Composition::quadratic_to`: issues `quadratic_bezier_to` with both
points scaled. -/
def Composition.quadratic_to (c : Composition) (ctrl dest : V2) : Composition :=
  { c with path := c.path ++
      [Verb.quadTo ⟨ctrl.x * c.scale, ctrl.y * c.scale⟩
        ⟨dest.x * c.scale, dest.y * c.scale⟩] }

/-- `Composition::cubic_to`: issues `cubic_bezier_to` with all three points
scaled. -/
def Composition.cubic_to (c : Composition) (ctrl0 ctrl1 dest : V2) : Composition :=
  { c with path := c.path ++
      [Verb.cubicTo ⟨ctrl0.x * c.scale, ctrl0.y * c.scale⟩
        ⟨ctrl1.x * c.scale, ctrl1.y * c.scale⟩
        ⟨dest.x * c.scale, dest.y * c.scale⟩] }

/-- `Composition::close`. -/
def Composition.close (c : Composition) : Composition :=
  { c with path := c.path ++ [Verb.closeVerb] }

/-- `Composition::set_color`. -/
def Composition.set_color (c : Composition) (color : V4) : Composition :=
  { c with color := color }

/-- `Composition::set_shader`. -/
def Composition.set_shader (c : Composition) (shader : Shader) : Composition :=
  { c with shader := shader }

/-- `Composition::set_stroke_thickness`. -/
def Composition.set_stroke_thickness (c : Composition) (t : ℚ) : Composition :=
  { c with stroke_thickness := t }

/-- `Composition::push_element`: swaps the current path with a fresh empty
builder and appends an `Element` capturing the old path together with the
current color, shader handle and the given raster method. -/
def Composition.push_element (c : Composition) (raster_method : Method) : Composition :=
  { c with
    path := []
    elements := c.elements ++
      [{ path := c.path
         color := c.color
         shader := c.shader
         raster_method := raster_method }] }

/-- `Composition::fill`. -/
def Composition.fill (c : Composition) : Composition :=
  c.push_element Method.Fill

/-- `Composition::stroke`: pushes `Method::Stroke(self.stroke_thickness)`. -/
def Composition.stroke (c : Composition) : Composition :=
  c.push_element (Method.Stroke c.stroke_thickness)

/-- One call against a `Composition`, for reasoning about arbitrary call
sequences issued by a draw callback. -/
inductive Op where
  | move_to (p : V2)
  | line_to (p : V2)
  | quadratic_to (ctrl p : V2)
  | cubic_to (ctrl0 ctrl1 p : V2)
  | closeOp
  | set_color (color : V4)
  | set_shader (s : Shader)
  | set_stroke_thickness (t : ℚ)
  | set_scale (s : ℚ)
  | fill
  | stroke
deriving DecidableEq, Repr

/-- Interpretation of one `Op` on a `Composition`. -/
def applyOp (c : Composition) : Op → Composition
  | Op.move_to p => c.move_to p
  | Op.line_to p => c.line_to p
  | Op.quadratic_to ctrl p => c.quadratic_to ctrl p
  | Op.cubic_to c0 c1 p => c.cubic_to c0 c1 p
  | Op.closeOp => c.close
  | Op.set_color color => c.set_color color
  | Op.set_shader s => c.set_shader s
  | Op.set_stroke_thickness t => c.set_stroke_thickness t
  | Op.set_scale s => c.set_scale s
  | Op.fill => c.fill
  | Op.stroke => c.stroke

/-- Interpretation of a call sequence, first call first. -/
def applyOps (c : Composition) (ops : List Op) : Composition :=
  ops.foldl applyOp c

/-- The segment-appending drawing calls: `line_to`, `quadratic_to`,
`cubic_to`. -/
def Op.isSegmentDraw : Op → Bool
  | Op.line_to _ => true
  | Op.quadratic_to _ _ => true
  | Op.cubic_to _ _ _ => true
  | _ => false

/-- The path commands a single segment-drawing call records, given the scale
in effect at the time of the call. -/
def segVerbs (scale : ℚ) : Op → List Verb
  | Op.line_to p => [Verb.lineTo ⟨p.x * scale, p.y * scale⟩]
  | Op.quadratic_to ctrl p =>
      [Verb.quadTo ⟨ctrl.x * scale, ctrl.y * scale⟩ ⟨p.x * scale, p.y * scale⟩]
  | Op.cubic_to c0 c1 p =>
      [Verb.cubicTo ⟨c0.x * scale, c0.y * scale⟩ ⟨c1.x * scale, c1.y * scale⟩
        ⟨p.x * scale, p.y * scale⟩]
  | _ => []

/-- The path commands a sequence of segment-drawing calls accumulates. -/
def segsOf (scale : ℚ) (ops : List Op) : List Verb :=
  ops.flatMap (segVerbs scale)

theorem applyOps_segmentDraws (c : Composition) (ops : List Op)
    (h : ∀ op ∈ ops, op.isSegmentDraw = true) :
    applyOps c ops = { c with path := c.path ++ segsOf c.scale ops } := by
  induction ops generalizing c with
  | nil => simp [applyOps, segsOf]
  | cons op rest ih =>
    have hop : op.isSegmentDraw = true := h op (List.mem_cons_self op rest)
    have hrest : ∀ o ∈ rest, o.isSegmentDraw = true :=
      fun o ho => h o (List.mem_cons_of_mem op ho)
    have hstep : applyOps c (op :: rest) = applyOps (applyOp c op) rest := rfl
    rw [hstep, ih _ hrest]
    cases op <;>
      simp [applyOp, Op.isSegmentDraw, segsOf, segVerbs, Composition.line_to,
        Composition.quadratic_to, Composition.cubic_to] at hop ⊢

/-- C1: for every Composition and every sequence of segment-drawing calls, a
single `fill()` (or `stroke()`) appends exactly one new Element whose path is
the accumulated segments, captured with the current color, shader handle and
`Fill` (or `Stroke` with the current thickness), and replaces the in-progress
path with an empty one, so a subsequent `fill()` with no intervening drawing
calls appends an Element with an empty path. -/
theorem C1_fill_stroke_freeze (c : Composition) (ops : List Op)
    (h : ops.all Op.isSegmentDraw = true) :
    (applyOps c ops).fill.elements =
      (applyOps c ops).elements ++
        [{ path := c.path ++ segsOf c.scale ops
           color := (applyOps c ops).color
           shader := (applyOps c ops).shader
           raster_method := Method.Fill }] ∧
    (applyOps c ops).fill.path = [] ∧
    (applyOps c ops).stroke.elements =
      (applyOps c ops).elements ++
        [{ path := c.path ++ segsOf c.scale ops
           color := (applyOps c ops).color
           shader := (applyOps c ops).shader
           raster_method := Method.Stroke (applyOps c ops).stroke_thickness }] ∧
    (applyOps c ops).stroke.path = [] ∧
    (applyOps c ops).fill.fill.elements =
      (applyOps c ops).fill.elements ++
        [{ path := []
           color := (applyOps c ops).color
           shader := (applyOps c ops).shader
           raster_method := Method.Fill }] := by
  rw [applyOps_segmentDraws c ops (List.all_eq_true.mp h)]
  simp [Composition.fill, Composition.stroke, Composition.push_element]

/-- C1 witness: the theorem applied to a fresh Composition and two concrete
`line_to` calls. -/
theorem C1_fill_stroke_freeze_witness :
    ([Op.line_to ⟨1, 2⟩, Op.line_to ⟨3, 4⟩].all Op.isSegmentDraw = true) ∧
    ((applyOps (Composition.new 0) [Op.line_to ⟨1, 2⟩, Op.line_to ⟨3, 4⟩]).fill.elements =
      (applyOps (Composition.new 0) [Op.line_to ⟨1, 2⟩, Op.line_to ⟨3, 4⟩]).elements ++
        [{ path := (Composition.new 0).path ++
              segsOf (Composition.new 0).scale [Op.line_to ⟨1, 2⟩, Op.line_to ⟨3, 4⟩]
           color := (applyOps (Composition.new 0) [Op.line_to ⟨1, 2⟩, Op.line_to ⟨3, 4⟩]).color
           shader := (applyOps (Composition.new 0) [Op.line_to ⟨1, 2⟩, Op.line_to ⟨3, 4⟩]).shader
           raster_method := Method.Fill }] ∧
    (applyOps (Composition.new 0) [Op.line_to ⟨1, 2⟩, Op.line_to ⟨3, 4⟩]).fill.path = [] ∧
    (applyOps (Composition.new 0) [Op.line_to ⟨1, 2⟩, Op.line_to ⟨3, 4⟩]).stroke.elements =
      (applyOps (Composition.new 0) [Op.line_to ⟨1, 2⟩, Op.line_to ⟨3, 4⟩]).elements ++
        [{ path := (Composition.new 0).path ++
              segsOf (Composition.new 0).scale [Op.line_to ⟨1, 2⟩, Op.line_to ⟨3, 4⟩]
           color := (applyOps (Composition.new 0) [Op.line_to ⟨1, 2⟩, Op.line_to ⟨3, 4⟩]).color
           shader := (applyOps (Composition.new 0) [Op.line_to ⟨1, 2⟩, Op.line_to ⟨3, 4⟩]).shader
           raster_method := Method.Stroke
             (applyOps (Composition.new 0) [Op.line_to ⟨1, 2⟩, Op.line_to ⟨3, 4⟩]).stroke_thickness }] ∧
    (applyOps (Composition.new 0) [Op.line_to ⟨1, 2⟩, Op.line_to ⟨3, 4⟩]).stroke.path = [] ∧
    (applyOps (Composition.new 0) [Op.line_to ⟨1, 2⟩, Op.line_to ⟨3, 4⟩]).fill.fill.elements =
      (applyOps (Composition.new 0) [Op.line_to ⟨1, 2⟩, Op.line_to ⟨3, 4⟩]).fill.elements ++
        [{ path := []
           color := (applyOps (Composition.new 0) [Op.line_to ⟨1, 2⟩, Op.line_to ⟨3, 4⟩]).color
           shader := (applyOps (Composition.new 0) [Op.line_to ⟨1, 2⟩, Op.line_to ⟨3, 4⟩]).shader
           raster_method := Method.Fill }]) :=
  ⟨by decide, C1_fill_stroke_freeze (Composition.new 0) [Op.line_to ⟨1, 2⟩, Op.line_to ⟨3, 4⟩]
    (by decide)⟩

/-- C2: `set_color`, `set_shader`, `set_stroke_thickness` and `set_scale`
leave the element list — and so every previously frozen Element, with its
path, color, shader and raster method — unchanged; in particular this holds
for a Composition that has just performed `fill()` or `stroke()`. -/
theorem C2_setters_preserve_frozen (c : Composition) (col : V4) (sh : Shader) (t s : ℚ) :
    ((c.fill.set_color col).elements = c.fill.elements ∧
      (c.fill.set_shader sh).elements = c.fill.elements ∧
      (c.fill.set_stroke_thickness t).elements = c.fill.elements ∧
      (c.fill.set_scale s).elements = c.fill.elements) ∧
    ((c.stroke.set_color col).elements = c.stroke.elements ∧
      (c.stroke.set_shader sh).elements = c.stroke.elements ∧
      (c.stroke.set_stroke_thickness t).elements = c.stroke.elements ∧
      (c.stroke.set_scale s).elements = c.stroke.elements) ∧
    ((c.set_color col).elements = c.elements ∧
      (c.set_shader sh).elements = c.elements ∧
      (c.set_stroke_thickness t).elements = c.elements ∧
      (c.set_scale s).elements = c.elements) :=
  ⟨⟨rfl, rfl, rfl, rfl⟩, ⟨rfl, rfl, rfl, rfl⟩, rfl, rfl, rfl, rfl⟩

/-- C3: `line_to(p)` (and `quadratic_to`, `cubic_to` for all their points)
appends a segment whose points are multiplied by the scale in effect at the
time of the call, and a later `set_scale` does not change points already
appended; the frozen element after `set_scale` still carries the points
scaled by the old factor. -/
theorem C3_scale_applied_at_call_time (c : Composition) (ctrl0 ctrl1 p : V2) (s : ℚ) :
    ((c.line_to p).set_scale s).path =
      c.path ++ [Verb.lineTo ⟨p.x * c.scale, p.y * c.scale⟩] ∧
    ((c.quadratic_to ctrl0 p).set_scale s).path =
      c.path ++ [Verb.quadTo ⟨ctrl0.x * c.scale, ctrl0.y * c.scale⟩
        ⟨p.x * c.scale, p.y * c.scale⟩] ∧
    ((c.cubic_to ctrl0 ctrl1 p).set_scale s).path =
      c.path ++ [Verb.cubicTo ⟨ctrl0.x * c.scale, ctrl0.y * c.scale⟩
        ⟨ctrl1.x * c.scale, ctrl1.y * c.scale⟩ ⟨p.x * c.scale, p.y * c.scale⟩] ∧
    ((c.line_to p).set_scale s).fill.elements =
      c.elements ++
        [{ path := c.path ++ [Verb.lineTo ⟨p.x * c.scale, p.y * c.scale⟩]
           color := c.color
           shader := c.shader
           raster_method := Method.Fill }] :=
  ⟨rfl, rfl, rfl, rfl⟩

/-- C6: `move_to(p)` discards the entire in-progress path and starts a new
subpath whose single point is `p` multiplied by the current scale factor;
nothing else in the Composition changes. -/
theorem C6_move_to_discards (c : Composition) (p : V2) :
    (c.move_to p).path = [Verb.moveTo ⟨p.x * c.scale, p.y * c.scale⟩] ∧
    (c.move_to p).elements = c.elements ∧
    (c.move_to p).color = c.color ∧
    (c.move_to p).shader = c.shader ∧
    (c.move_to p).stroke_thickness = c.stroke_thickness ∧
    (c.move_to p).scale = c.scale :=
  ⟨rfl, rfl, rfl, rfl, rfl, rfl⟩

/-- Embedding of `World`: the immutable per-run parameters (`width` and
`height` are stored as `f32` in the source). -/
structure World where
  seed : Nat
  width : ℚ
  height : ℚ
  scale : ℚ
  frames : Nat
deriving DecidableEq, Repr

/-- Embedding of `FrameContext`. -/
structure FrameContext where
  frame : Nat
deriving DecidableEq, Repr

/-- Modelled from the spec: the GPU device collaborator (the `gpu` module is
not under src/). Per §6 of the specification the device must give
deterministic output for identical Element lists and identical target state,
so it is embedded as a function record: `default_shader` returns the handle
of the default shader sized to the given width and height, and `precompose`
returns the bytes of the image obtained by compositing the ordered Element
list into a target of the given dimensions, reading it back and converting
each channel to its display encoding. -/
structure Gpu where
  default_shader : ℚ → ℚ → Shader
  precompose : Nat → Nat → List Element → List Nat

/-- Embedding of `save_path_for_frame`: the returned path is the base path
with the seed directory and `<frame>.png` pushed onto it (a path is a list
of components; the `create_dir_all` side effect is I/O and not modelled). -/
def save_path_for_frame (base_path : List String) (seed : Nat) (frame : Nat) : List String :=
  base_path ++ [toString seed, toString frame ++ ".png"]

/-- Embedding of `RenderGate`. -/
structure RenderGate where
  world : World
  width : Nat
  height : Nat
  wait : ℚ
  save_dir : Option (List String)
  frames : Nat

/-- Embedding of `RenderGate::render_frames`, returning the ordered list of
file writes (path and bytes). For each `frame` in `0..frames` it builds a
fresh Composition from the default shader, applies `set_scale(world.scale)`,
runs the caller's callback, and — when a save directory is set — precomposes
exactly `comp.elements` and writes the result at
`save_path_for_frame(save_dir, world.seed, frame)`. In the windowed branch
nothing is written to disk (presentation and frame pacing are I/O and not
modelled). -/
def RenderGate.render_frames (gate : RenderGate) (gpu : Gpu)
    (f : FrameContext → Composition → Composition) : List (List String × List Nat) :=
  match gate.save_dir with
  | some save_dir =>
      (List.range gate.frames).map fun frame =>
        let comp := f { frame := frame }
          ((Composition.new (gpu.default_shader gate.width gate.height)).set_scale
            gate.world.scale)
        (save_path_for_frame save_dir gate.world.seed frame,
         gpu.precompose gate.width gate.height comp.elements)
  | none => []

/-- Embedding of `Options` (the structopt defaults are seed 0, 512×650,
scale 1, 1 frame, framerate 24, no output). -/
structure Options where
  seed : Nat
  width : Nat
  height : Nat
  scale : ℚ
  frames : Nat
  framerate : Nat
  output : Option (List String)
deriving DecidableEq, Repr

/-- Embedding of `World::from(&Options)`. -/
def World.from_options (o : Options) : World :=
  { seed := o.seed
    width := o.width
    height := o.height
    scale := o.scale
    frames := o.frames }

/-- Modelled from the spec: `StdRng::seed_from_u64` (the rand crate is an
external collaborator; the spec provides it as an opaque generator seeded
deterministically), represented by the seed it was constructed from. -/
def seed_from_u64 (seed : Nat) : Nat := seed

/-- An `f32 as u32` cast: truncation toward zero, negative values to 0. -/
def f32_to_u32 (q : ℚ) : Nat := (⌊q⌋ : ℤ).toNat

/-- Embedding of `run`: builds the World from the options, derives the pixel
dimensions as `(width as f32 * scale) as u32` (likewise height), seeds the
generator from the seed option alone, constructs the RenderGate with wait
duration `1 / framerate`, the output option as save directory and the frame
count, and hands {world, rng, gate} to the caller's closure, returning its
result. (The Gpu construction choice between windowed and offscreen has no
observable effect in this embedding; the device handle is passed through.) -/
def run {α : Type} (o : Options) (gpu : Gpu) (f : World → Nat → RenderGate → α) : α :=
  let world := World.from_options o
  let rng := seed_from_u64 o.seed
  let gate : RenderGate :=
    { world := world
      width := f32_to_u32 ((o.width : ℚ) * o.scale)
      height := f32_to_u32 ((o.height : ℚ) * o.scale)
      wait := 1 / (o.framerate : ℚ)
      save_dir := o.output
      frames := o.frames }
  f world rng gate

/-- C4: with an output directory set, `render_frames` iterates the frame
indices `0..frames` in order and writes exactly one file per frame, the
`i`-th at path `<output>/<seed>/<i>.png`. -/
theorem C4_one_file_per_frame (gate : RenderGate) (gpu : Gpu)
    (f : FrameContext → Composition → Composition) (d : List String)
    (h : gate.save_dir = some d) :
    (gate.render_frames gpu f).map Prod.fst =
      (List.range gate.frames).map
        (fun i => d ++ [toString gate.world.seed, toString i ++ ".png"]) ∧
    (gate.render_frames gpu f).length = gate.frames := by
  simp [RenderGate.render_frames, h, save_path_for_frame]

/-- A concrete Gpu model for witnesses: shader handle 0, and an image that
records the number of composited elements. -/
def gpuW : Gpu :=
  { default_shader := fun _ _ => 0
    precompose := fun _ _ es => [es.length] }

/-- A concrete RenderGate for witnesses: seed 0, 3 frames, output `out`. -/
def gateW : RenderGate :=
  { world := { seed := 0, width := 100, height := 100, scale := 1, frames := 3 }
    width := 100
    height := 100
    wait := 1 / 24
    save_dir := some ["out"]
    frames := 3 }

/-- C4 witness: a 3-frame run writes exactly the files `0.png`, `1.png`,
`2.png` under `out/0/`, in order. -/
theorem C4_one_file_per_frame_witness :
    (gateW.render_frames gpuW (fun _ c => c)).map Prod.fst =
      [["out", "0", "0.png"], ["out", "0", "1.png"], ["out", "0", "2.png"]] ∧
    (gateW.render_frames gpuW (fun _ c => c)).length = 3 :=
  ⟨((C4_one_file_per_frame gateW gpuW (fun _ c => c) ["out"] rfl).1).trans (by decide),
    (C4_one_file_per_frame gateW gpuW (fun _ c => c) ["out"] rfl).2⟩

/-- The calls that freeze an Element: `fill` and `stroke`. -/
def Op.isFreeze : Op → Bool
  | Op.fill => true
  | Op.stroke => true
  | _ => false

theorem applyOps_no_freeze_elements (c : Composition) (ops : List Op)
    (h : ops.all (fun op => !op.isFreeze) = true) :
    (applyOps c ops).elements = c.elements := by
  induction ops generalizing c with
  | nil => rfl
  | cons op rest ih =>
    rw [List.all_cons, Bool.and_eq_true] at h
    have hstep : applyOps c (op :: rest) = applyOps (applyOp c op) rest := rfl
    rw [hstep, ih _ h.2]
    cases op <;> simp_all [applyOp, Op.isFreeze, Composition.move_to,
      Composition.line_to, Composition.quadratic_to, Composition.cubic_to,
      Composition.close, Composition.set_color, Composition.set_shader,
      Composition.set_stroke_thickness, Composition.set_scale]

/-- C7: only frozen Elements reach the device. Appending any sequence of
non-freezing calls (path building or setters never ended by `fill`/`stroke`)
at the end of every frame's callback leaves the rendered output unchanged:
an unflushed in-progress path contributes nothing and is silently dropped. -/
theorem C7_unflushed_path_dropped (gate : RenderGate) (gpu : Gpu)
    (f : FrameContext → Composition → Composition) (extra : List Op)
    (h : extra.all (fun op => !op.isFreeze) = true) :
    gate.render_frames gpu (fun ctx c => applyOps (f ctx c) extra) =
      gate.render_frames gpu f := by
  unfold RenderGate.render_frames
  cases hs : gate.save_dir with
  | none => rfl
  | some d => simp [applyOps_no_freeze_elements _ _ h]

/-- C7 witness: a callback that leaves an unflushed `line_to` path renders
exactly like a callback that draws nothing. -/
theorem C7_unflushed_path_dropped_witness :
    ([Op.line_to ⟨5, 7⟩].all (fun op => !op.isFreeze) = true) ∧
    gateW.render_frames gpuW (fun ctx c => applyOps ((fun _ c => c) ctx c) [Op.line_to ⟨5, 7⟩]) =
      gateW.render_frames gpuW (fun _ c => c) :=
  ⟨by decide, C7_unflushed_path_dropped gateW gpuW (fun _ c => c) [Op.line_to ⟨5, 7⟩] (by decide)⟩

/-- C9: runs are deterministic in the options. Two runs whose options agree
on every field (seed, width, height, scale, frames, framerate, output) hand
identical data to the same callback and so produce identical output; and the
generator handed to the callback is seeded from the seed option alone. -/
theorem C9_run_deterministic {α : Type} (o1 o2 : Options) (gpu : Gpu)
    (f : World → Nat → RenderGate → α)
    (h1 : o1.seed = o2.seed) (h2 : o1.width = o2.width) (h3 : o1.height = o2.height)
    (h4 : o1.scale = o2.scale) (h5 : o1.frames = o2.frames)
    (h6 : o1.framerate = o2.framerate) (h7 : o1.output = o2.output) :
    run o1 gpu f = run o2 gpu f ∧
    run o1 gpu (fun _ rng _ => rng) = seed_from_u64 o1.seed := by
  have ho : o1 = o2 := by
    cases o1
    cases o2
    simp_all
  rw [ho]
  exact ⟨rfl, rfl⟩

/-- A concrete Options record for witnesses (the structopt defaults, with an
output directory). -/
def optW : Options :=
  { seed := 0
    width := 512
    height := 650
    scale := 1
    frames := 1
    framerate := 24
    output := some ["out"] }

/-- C9 witness: the determinism theorem applied at the default options. -/
theorem C9_run_deterministic_witness :
    (optW.seed = optW.seed ∧ optW.output = optW.output) ∧
    (run optW gpuW (fun _ rng _ => [rng]) = run optW gpuW (fun _ rng _ => [rng]) ∧
      run optW gpuW (fun _ rng _ => rng) = seed_from_u64 optW.seed) :=
  ⟨⟨rfl, rfl⟩,
    C9_run_deterministic optW optW gpuW (fun _ rng _ => [rng])
      rfl rfl rfl rfl rfl rfl rfl⟩

/-- Opaque white, the color a fresh Composition starts with. -/
def whiteV4 : V4 := ⟨1, 1, 1, 1⟩

/-- The one call that changes the current color. -/
def Op.isSetColor : Op → Bool
  | Op.set_color _ => true
  | _ => false

theorem applyOp_color_unchanged (c : Composition) (op : Op)
    (h : op.isSetColor = false) : (applyOp c op).color = c.color := by
  cases op <;> simp_all [applyOp, Op.isSetColor, Composition.move_to,
    Composition.line_to, Composition.quadratic_to, Composition.cubic_to,
    Composition.close, Composition.set_color, Composition.set_shader,
    Composition.set_stroke_thickness, Composition.set_scale, Composition.fill,
    Composition.stroke, Composition.push_element]

theorem applyOp_elements_color (c : Composition) (op : Op) (P : V4 → Bool)
    (hc : P c.color = true)
    (he : c.elements.all (fun e => P e.color) = true) :
    (applyOp c op).elements.all (fun e => P e.color) = true := by
  cases op <;> simp_all [applyOp, Composition.move_to, Composition.line_to,
    Composition.quadratic_to, Composition.cubic_to, Composition.close,
    Composition.set_color, Composition.set_shader, Composition.set_stroke_thickness,
    Composition.set_scale, Composition.fill, Composition.stroke,
    Composition.push_element]

theorem applyOps_no_set_color_white (c : Composition) (ops : List Op)
    (hops : ops.all (fun op => !op.isSetColor) = true)
    (hc : c.color = whiteV4)
    (he : c.elements.all (fun e => e.color == whiteV4) = true) :
    (applyOps c ops).color = whiteV4 ∧
      (applyOps c ops).elements.all (fun e => e.color == whiteV4) = true := by
  induction ops generalizing c with
  | nil => exact ⟨hc, he⟩
  | cons op rest ih =>
    rw [List.all_cons, Bool.and_eq_true] at hops
    have hstep : applyOps c (op :: rest) = applyOps (applyOp c op) rest := rfl
    rw [hstep]
    have hcolor : (applyOp c op).color = whiteV4 := by
      rw [applyOp_color_unchanged c op (by simpa using hops.1)]
      exact hc
    refine ih _ hops.2 hcolor ?_
    exact applyOp_elements_color c op (fun col => col == whiteV4) (by simp [hc]) he

/-- C10: a freshly constructed Composition has an empty in-progress path, an
empty element list, opaque white color, stroke thickness 1, scale 1, and the
shader it was handed; and any callback that never calls `set_color` freezes
only white Elements (in particular a draw followed by `fill()` freezes a
white-filled Element). -/
theorem C10_fresh_composition_defaults (sh : Shader) (ops : List Op)
    (h : ops.all (fun op => !op.isSetColor) = true) :
    (Composition.new sh).path = [] ∧
    (Composition.new sh).elements = [] ∧
    (Composition.new sh).color = whiteV4 ∧
    (Composition.new sh).stroke_thickness = 1 ∧
    (Composition.new sh).scale = 1 ∧
    (Composition.new sh).shader = sh ∧
    (applyOps (Composition.new sh) ops).elements.all (fun e => e.color == whiteV4) = true := by
  refine ⟨rfl, rfl, rfl, rfl, rfl, rfl, ?_⟩
  exact (applyOps_no_set_color_white (Composition.new sh) ops h rfl rfl).2

/-- C10 witness: drawing a line and filling without ever calling `set_color`
freezes only white Elements. -/
theorem C10_fresh_composition_defaults_witness :
    ([Op.line_to ⟨1, 1⟩, Op.fill].all (fun op => !op.isSetColor) = true) ∧
    ((Composition.new 0).path = [] ∧
      (Composition.new 0).elements = [] ∧
      (Composition.new 0).color = whiteV4 ∧
      (Composition.new 0).stroke_thickness = 1 ∧
      (Composition.new 0).scale = 1 ∧
      (Composition.new 0).shader = 0 ∧
      (applyOps (Composition.new 0) [Op.line_to ⟨1, 1⟩, Op.fill]).elements.all
        (fun e => e.color == whiteV4) = true) :=
  ⟨by decide, C10_fresh_composition_defaults 0 [Op.line_to ⟨1, 1⟩, Op.fill] (by decide)⟩

/-- A raster method satisfying the strictly-positive-thickness invariant the
specification states for Elements. -/
def Method.isPositive : Method → Bool
  | Method.Fill => true
  | Method.Stroke t => decide (0 < t)

/-- C8 counterexample: the code does not enforce positive stroke thickness.
Calling `set_stroke_thickness(0)` and then `stroke()` on a fresh Composition
appends an Element whose raster method is `Stroke(0)`, refuting the claim
that every appended Element has `Fill` or a strictly positive `Stroke`
thickness for every call sequence. -/
theorem C8_counterexample :
    ¬ (((Composition.new 0).set_stroke_thickness 0).stroke.elements.all
        (fun e => e.raster_method.isPositive) = true) := by
  decide

/-- An `Op` that never installs a non-positive stroke thickness. -/
def Op.keepsThicknessPositive : Op → Bool
  | Op.set_stroke_thickness t => decide (0 < t)
  | _ => true

/-- C8 (amended): every Element's raster method is `Fill` or `Stroke` with
the thickness current at the time of the `stroke()` call; every Element has
a strictly positive thickness provided the current thickness is positive
(the initial value is 1) and every `set_stroke_thickness` call in the
sequence passes a strictly positive value — the code itself performs no
validation. -/
theorem applyOp_thickness_step (c : Composition) (op : Op)
    (hop : op.keepsThicknessPositive = true)
    (hc : 0 < c.stroke_thickness)
    (he : c.elements.all (fun e => e.raster_method.isPositive) = true) :
    0 < (applyOp c op).stroke_thickness ∧
      (applyOp c op).elements.all (fun e => e.raster_method.isPositive) = true := by
  cases op <;>
    simp_all [applyOp, Op.keepsThicknessPositive, Method.isPositive,
      Composition.move_to, Composition.line_to, Composition.quadratic_to,
      Composition.cubic_to, Composition.close, Composition.set_color,
      Composition.set_shader, Composition.set_stroke_thickness,
      Composition.set_scale, Composition.fill, Composition.stroke,
      Composition.push_element]

theorem C8_thickness_positive_conditional (c : Composition) (ops : List Op)
    (hops : ops.all Op.keepsThicknessPositive = true)
    (hc : 0 < c.stroke_thickness)
    (he : c.elements.all (fun e => e.raster_method.isPositive) = true) :
    (applyOps c ops).elements.all (fun e => e.raster_method.isPositive) = true := by
  induction ops generalizing c with
  | nil => exact he
  | cons op rest ih =>
    rw [List.all_cons, Bool.and_eq_true] at hops
    have hstep : applyOps c (op :: rest) = applyOps (applyOp c op) rest := rfl
    rw [hstep]
    obtain ⟨h1, h2⟩ := applyOp_thickness_step c op hops.1 hc he
    exact ih _ hops.2 h1 h2

/-- C8 witness: a sequence that sets a positive thickness, strokes and fills
yields only Elements with `Fill` or positive `Stroke` thickness. -/
theorem C8_thickness_positive_conditional_witness :
    ([Op.set_stroke_thickness 2, Op.stroke, Op.fill].all Op.keepsThicknessPositive = true ∧
      (0 : ℚ) < (Composition.new 0).stroke_thickness ∧
      (Composition.new 0).elements.all (fun e => e.raster_method.isPositive) = true) ∧
    (applyOps (Composition.new 0) [Op.set_stroke_thickness 2, Op.stroke, Op.fill]).elements.all
      (fun e => e.raster_method.isPositive) = true :=
  ⟨⟨by decide, by decide, by decide⟩,
    C8_thickness_positive_conditional (Composition.new 0)
      [Op.set_stroke_thickness 2, Op.stroke, Op.fill] (by decide) (by decide) (by decide)⟩

/-- A polygon: its ordered vertex list, implicitly closed (the rasterizer
sources `regions.rs`, `grid_lines.rs` and `buffer.rs` are not under src/;
only their test driver is, so the region rasterizer below is modelled from
§4.2 of the specification). -/
abbrev Polygon := List V2

/-- The edges of a closed polygon starting at `first`: consecutive pairs,
ending with the edge back to `first`. -/
def cycleEdges (first : V2) : V2 → List V2 → List (V2 × V2)
  | prev, [] => [(prev, first)]
  | prev, v :: vs => (prev, v) :: cycleEdges first v vs

/-- All edges of a closed polygon: consecutive vertex pairs plus the closing
edge from the last vertex back to the first. -/
def edges : Polygon → List (V2 × V2)
  | [] => []
  | v :: vs => cycleEdges v v vs

/-- Least value of `f` over the vertices (0 for the empty polygon). -/
def foldMin (f : V2 → ℚ) : Polygon → ℚ
  | [] => 0
  | v :: vs => vs.foldl (fun m p => min m (f p)) (f v)

/-- Greatest value of `f` over the vertices (0 for the empty polygon). -/
def foldMax (f : V2 → ℚ) : Polygon → ℚ
  | [] => 0
  | v :: vs => vs.foldl (fun m p => max m (f p)) (f v)

/-- Left edge of the polygon's bounding box. -/
def min_x (poly : Polygon) : ℚ := foldMin (fun v => v.x) poly

/-- Right edge of the polygon's bounding box. -/
def max_x (poly : Polygon) : ℚ := foldMax (fun v => v.x) poly

/-- Bottom edge of the polygon's bounding box. -/
def min_y (poly : Polygon) : ℚ := foldMin (fun v => v.y) poly

/-- Top edge of the polygon's bounding box. -/
def max_y (poly : Polygon) : ℚ := foldMax (fun v => v.y) poly

/-- The integers from `lo` to `hi` inclusive, in order. -/
def intsFromTo (lo hi : ℤ) : List ℤ :=
  (List.range (hi + 1 - lo).toNat).map (fun i => lo + (i : ℤ))

/-- Modelled from the spec: the integer scanlines within the polygon's
vertical extent `[min_y, max_y]`. -/
def scanlines (poly : Polygon) : List ℤ :=
  intsFromTo ⌈min_y poly⌉ ⌊max_y poly⌋

/-- Modelled from the spec: whether an edge crosses the horizontal line at
height `y` (standard half-open scanline rule; horizontal edges contribute no
crossings). -/
def crossesAt (e : V2 × V2) (y : ℚ) : Bool :=
  decide (min e.1.y e.2.y ≤ y) && decide (y < max e.1.y e.2.y)

/-- Modelled from the spec: the x-intercept of an edge with the horizontal
line at height `y`. -/
def xIntercept (e : V2 × V2) (y : ℚ) : ℚ :=
  e.1.x + (y - e.1.y) * (e.2.x - e.1.x) / (e.2.y - e.1.y)

/-- Insertion into a weakly sorted list. -/
def insertSorted (c : ℚ) : List ℚ → List ℚ
  | [] => [c]
  | d :: ds => if c ≤ d then c :: d :: ds else d :: insertSorted c ds

/-- Insertion sort, ascending. -/
def sortQ : List ℚ → List ℚ
  | [] => []
  | c :: cs => insertSorted c (sortQ cs)

/-- Modelled from the spec: the x-intercepts of the polygon edges crossing
scanline `y`, ordered left to right. -/
def crossings (poly : Polygon) (y : ℚ) : List ℚ :=
  sortQ (((edges poly).filter (fun e => crossesAt e y)).map (fun e => xIntercept e y))

/-- Consecutive even/odd pairs of an ordered crossing list. -/
def pairUp : List ℚ → List (ℚ × ℚ)
  | a :: b :: rest => (a, b) :: pairUp rest
  | _ => []

/-- Modelled from the spec: a classified maximal run of pixels — an Interior
span `lo..hi` on row `y`, or a single Boundary pixel. -/
inductive Region where
  | Interior (y lo hi : ℤ)
  | Boundary (x y : ℤ)
deriving DecidableEq, Repr

/-- Whether a region is an Interior region. -/
def Region.isInterior : Region → Bool
  | Region.Interior _ _ _ => true
  | Region.Boundary _ _ => false

/-- The pixel coordinates a region covers. -/
def Region.covers (r : Region) (x y : ℤ) : Bool :=
  match r with
  | Region.Interior ry lo hi => decide (ry = y) && decide (lo ≤ x) && decide (x ≤ hi)
  | Region.Boundary bx ry => decide (bx = x) && decide (ry = y)

/-- Modelled from the spec: the Interior run strictly between an even/odd
crossing pair, excluding pixels within the half-pixel Boundary tolerance of
either crossing; empty when no integer pixel lies strictly between. -/
def interiorSpan (y : ℤ) (ab : ℚ × ℚ) : List Region :=
  let lo : ℤ := ⌊ab.1 + 1/2⌋ + 1
  let hi : ℤ := ⌈ab.2 - 1/2⌉ - 1
  if lo ≤ hi then [Region.Interior y lo hi] else []

/-- Modelled from the spec: the Boundary pixels coincident with a crossing,
within a half-pixel tolerance. -/
def boundarySpan (y : ℤ) (c : ℚ) : List Region :=
  (intsFromTo ⌈c - 1/2⌉ ⌊c + 1/2⌋).map (fun x => Region.Boundary x y)

/-- Modelled from the spec: the regions one scanline emits — Interior runs
between even/odd crossing pairs and Boundary pixels at each crossing. -/
def scanlineRegions (poly : Polygon) (y : ℤ) : List Region :=
  (pairUp (crossings poly (y : ℚ))).flatMap (interiorSpan y) ++
    (crossings poly (y : ℚ)).flatMap (boundarySpan y)

/-- Modelled from the spec: the full region decomposition of a polygon,
row-granular, one scanline at a time. -/
def regionList (poly : Polygon) : List Region :=
  (scanlines poly).flatMap (scanlineRegions poly)

/-- A triangle with 3 distinct vertices and no zero-length edge whose height
is below one pixel row. -/
def tinyTriangle : Polygon := [⟨0, 0⟩, ⟨1, 0⟩, ⟨1/2, 1/4⟩]

/-- C5 counterexample: `tinyTriangle` has at least 3 non-degenerate vertices
(pairwise distinct, no zero-length edges), yet the rasterizer modelled from
the specification emits no Interior region for it — its only integer
scanline meets it in the crossing pair (0, 1), and no integer pixel lies
strictly between. This refutes the claim that every polygon with ≥3
non-degenerate vertices yields at least one Interior region. -/
theorem C5_counterexample :
    (3 ≤ tinyTriangle.length ∧
      tinyTriangle.Pairwise (fun a b => a ≠ b) ∧
      (edges tinyTriangle).all (fun e => decide (e.1 ≠ e.2)) = true) ∧
    (regionList tinyTriangle).all (fun r => !r.isInterior) = true := by
  with_unfolding_all decide

theorem cycleEdges_mem (first : V2) (vs : List V2) (prev : V2) (e : V2 × V2)
    (h : e ∈ cycleEdges first prev vs) :
    (e.1 = prev ∨ e.1 ∈ vs) ∧ (e.2 = first ∨ e.2 ∈ vs) := by
  induction vs generalizing prev with
  | nil =>
    simp only [cycleEdges, List.mem_singleton] at h
    subst h
    simp
  | cons v vs ih =>
    simp only [cycleEdges, List.mem_cons] at h
    rcases h with rfl | h
    · simp
    · obtain ⟨h1, h2⟩ := ih v h
      constructor
      · rcases h1 with h1 | h1 <;> simp [h1]
      · rcases h2 with h2 | h2 <;> simp [h2]

theorem edges_mem (poly : Polygon) (e : V2 × V2) (h : e ∈ edges poly) :
    e.1 ∈ poly ∧ e.2 ∈ poly := by
  cases poly with
  | nil => simp [edges] at h
  | cons v vs =>
    obtain ⟨h1, h2⟩ := cycleEdges_mem v vs v e h
    constructor
    · rcases h1 with h1 | h1 <;> simp [h1]
    · rcases h2 with h2 | h2 <;> simp [h2]

theorem foldl_min_le_init (f : V2 → ℚ) (vs : List V2) (a : ℚ) :
    vs.foldl (fun m p => min m (f p)) a ≤ a := by
  induction vs generalizing a with
  | nil => simp
  | cons v vs ih => exact le_trans (ih (min a (f v))) (min_le_left a (f v))

theorem foldl_min_le_mem (f : V2 → ℚ) (vs : List V2) :
    ∀ (a : ℚ) (v : V2), v ∈ vs → vs.foldl (fun m p => min m (f p)) a ≤ f v := by
  induction vs with
  | nil => intro a v h; cases h
  | cons w ws ih =>
    intro a v h
    rcases List.mem_cons.mp h with rfl | hv
    · exact le_trans (foldl_min_le_init f ws _) (min_le_right a (f v))
    · exact ih _ v hv

theorem foldMin_le (f : V2 → ℚ) (poly : Polygon) (v : V2) (h : v ∈ poly) :
    foldMin f poly ≤ f v := by
  cases poly with
  | nil => cases h
  | cons w ws =>
    rcases List.mem_cons.mp h with rfl | hv
    · exact foldl_min_le_init f ws (f v)
    · exact foldl_min_le_mem f ws (f w) v hv

theorem foldl_max_init_le (f : V2 → ℚ) (vs : List V2) (a : ℚ) :
    a ≤ vs.foldl (fun m p => max m (f p)) a := by
  induction vs generalizing a with
  | nil => simp
  | cons v vs ih => exact le_trans (le_max_left a (f v)) (ih (max a (f v)))

theorem foldl_max_mem_le (f : V2 → ℚ) (vs : List V2) :
    ∀ (a : ℚ) (v : V2), v ∈ vs → f v ≤ vs.foldl (fun m p => max m (f p)) a := by
  induction vs with
  | nil => intro a v h; cases h
  | cons w ws ih =>
    intro a v h
    rcases List.mem_cons.mp h with rfl | hv
    · exact le_trans (le_max_right a (f v)) (foldl_max_init_le f ws _)
    · exact ih _ v hv

theorem le_foldMax (f : V2 → ℚ) (poly : Polygon) (v : V2) (h : v ∈ poly) :
    f v ≤ foldMax f poly := by
  cases poly with
  | nil => cases h
  | cons w ws =>
    rcases List.mem_cons.mp h with rfl | hv
    · exact foldl_max_init_le f ws (f v)
    · exact foldl_max_mem_le f ws (f w) v hv

theorem mem_intsFromTo {lo hi x : ℤ} (h : x ∈ intsFromTo lo hi) : lo ≤ x ∧ x ≤ hi := by
  obtain ⟨i, hilt, rfl⟩ := by simpa [intsFromTo] using h
  omega

theorem mem_insertSorted (c x : ℚ) (l : List ℚ) (h : x ∈ insertSorted c l) :
    x = c ∨ x ∈ l := by
  induction l with
  | nil => simpa [insertSorted] using h
  | cons d ds ih =>
    simp only [insertSorted] at h
    split at h
    · rcases List.mem_cons.mp h with rfl | h2
      · exact Or.inl rfl
      · exact Or.inr h2
    · rcases List.mem_cons.mp h with rfl | h2
      · exact Or.inr (List.mem_cons_self _ _)
      · rcases ih h2 with h3 | h3
        · exact Or.inl h3
        · exact Or.inr (List.mem_cons_of_mem _ h3)

theorem mem_sortQ (x : ℚ) (l : List ℚ) (h : x ∈ sortQ l) : x ∈ l := by
  induction l with
  | nil => simpa [sortQ] using h
  | cons c cs ih =>
    simp only [sortQ] at h
    rcases mem_insertSorted c x _ h with rfl | h2
    · exact List.mem_cons_self _ _
    · exact List.mem_cons_of_mem _ (ih h2)

theorem mem_pairUp : ∀ (l : List ℚ) (ab : ℚ × ℚ), ab ∈ pairUp l → ab.1 ∈ l ∧ ab.2 ∈ l
  | [], ab, h => by simp [pairUp] at h
  | [a], ab, h => by simp [pairUp] at h
  | a :: b :: rest, ab, h => by
    simp only [pairUp, List.mem_cons] at h
    rcases h with rfl | h
    · simp
    · have h2 := mem_pairUp rest ab h
      exact ⟨List.mem_cons_of_mem _ (List.mem_cons_of_mem _ h2.1),
        List.mem_cons_of_mem _ (List.mem_cons_of_mem _ h2.2)⟩

theorem convex_point_between (x1 x2 t v : ℚ) (ht0 : 0 ≤ t) (ht1 : t ≤ 1)
    (hv : v = x1 + t * (x2 - x1)) :
    min x1 x2 ≤ v ∧ v ≤ max x1 x2 := by
  subst hv
  constructor
  · rcases le_total x1 x2 with hx | hx
    · rw [min_eq_left hx]
      nlinarith [mul_nonneg ht0 (sub_nonneg.mpr hx)]
    · rw [min_eq_right hx]
      nlinarith [mul_nonneg (sub_nonneg.mpr ht1) (sub_nonneg.mpr hx)]
  · rcases le_total x1 x2 with hx | hx
    · rw [max_eq_right hx]
      nlinarith [mul_nonneg (sub_nonneg.mpr ht1) (sub_nonneg.mpr hx)]
    · rw [max_eq_left hx]
      nlinarith [mul_nonneg ht0 (sub_nonneg.mpr hx)]

theorem xIntercept_between (e : V2 × V2) (y : ℚ) (h : crossesAt e y = true) :
    min e.1.x e.2.x ≤ xIntercept e y ∧ xIntercept e y ≤ max e.1.x e.2.x := by
  have hmm : min e.1.y e.2.y ≤ y ∧ y < max e.1.y e.2.y := by
    simpa [crossesAt] using h
  obtain ⟨h1, h2⟩ := hmm
  rcases le_or_lt e.1.y e.2.y with hy | hy
  · rw [min_eq_left hy] at h1
    rw [max_eq_right hy] at h2
    have hd : (0:ℚ) < e.2.y - e.1.y := by linarith
    refine convex_point_between e.1.x e.2.x ((y - e.1.y) / (e.2.y - e.1.y)) _ ?_ ?_ ?_
    · exact div_nonneg (by linarith) (le_of_lt hd)
    · exact (div_le_one hd).mpr (by linarith)
    · unfold xIntercept
      ring
  · rw [min_eq_right (le_of_lt hy)] at h1
    rw [max_eq_left (le_of_lt hy)] at h2
    have hd : e.2.y - e.1.y < 0 := by linarith
    refine convex_point_between e.1.x e.2.x ((y - e.1.y) / (e.2.y - e.1.y)) _ ?_ ?_ ?_
    · exact div_nonneg_of_nonpos (by linarith) (le_of_lt hd)
    · rw [div_le_one_iff]
      exact Or.inr (Or.inr ⟨hd, by linarith⟩)
    · unfold xIntercept
      ring

theorem crossing_bounds (poly : Polygon) (y c : ℚ) (h : c ∈ crossings poly y) :
    min_x poly ≤ c ∧ c ≤ max_x poly := by
  have h2 := mem_sortQ c _ h
  simp only [List.mem_map, List.mem_filter] at h2
  obtain ⟨e, ⟨hmem, hcross⟩, rfl⟩ := h2
  obtain ⟨hv1, hv2⟩ := edges_mem poly e hmem
  obtain ⟨hlo, hhi⟩ := xIntercept_between e y hcross
  constructor
  · refine le_trans ?_ hlo
    unfold min_x
    rcases min_cases e.1.x e.2.x with ⟨hmin, _⟩ | ⟨hmin, _⟩ <;> rw [hmin]
    · exact foldMin_le _ poly _ hv1
    · exact foldMin_le _ poly _ hv2
  · refine le_trans hhi ?_
    unfold max_x
    rcases max_cases e.1.x e.2.x with ⟨hmax, _⟩ | ⟨hmax, _⟩ <;> rw [hmax]
    · exact le_foldMax _ poly _ hv1
    · exact le_foldMax _ poly _ hv2

theorem floor_le_of_half {m : ℚ} {x : ℤ} (h : m - 1/2 ≤ (x:ℚ)) : ⌊m⌋ ≤ x := by
  have h1 : (⌊m⌋ : ℚ) ≤ m := Int.floor_le m
  have hlt : (⌊m⌋ : ℚ) < (x:ℚ) + 1 := by linarith
  have hlt2 : ⌊m⌋ < x + 1 := by exact_mod_cast hlt
  omega

theorem le_ceil_of_half {m : ℚ} {x : ℤ} (h : (x:ℚ) ≤ m + 1/2) : x ≤ ⌈m⌉ := by
  have h1 : m ≤ (⌈m⌉ : ℚ) := Int.le_ceil m
  have hlt : (x:ℚ) < (⌈m⌉:ℚ) + 1 := by linarith
  have hlt2 : x < ⌈m⌉ + 1 := by exact_mod_cast hlt
  omega

/-- C5 (amended): every pixel coordinate covered by any Interior or Boundary
region the rasterizer emits lies within the polygon's bounding box, rounded
outward to whole pixels; the existence of an Interior region is not
guaranteed (see the counterexample: a polygon of sub-pixel height emits
none). -/
theorem C5_regions_within_bbox (poly : Polygon) (r : Region) (x y : ℤ)
    (hr : r ∈ regionList poly) (hc : r.covers x y = true) :
    ⌊min_x poly⌋ ≤ x ∧ x ≤ ⌈max_x poly⌉ ∧ ⌊min_y poly⌋ ≤ y ∧ y ≤ ⌈max_y poly⌉ := by
  simp only [regionList, List.mem_flatMap] at hr
  obtain ⟨ys, hys, hr⟩ := hr
  obtain ⟨hylo, hyhi⟩ := mem_intsFromTo (by simpa [scanlines] using hys)
  simp only [scanlineRegions, List.mem_append, List.mem_flatMap] at hr
  rcases hr with ⟨ab, hab, hri⟩ | ⟨cq, hcq, hrb⟩
  · obtain ⟨hcq1, hcq2⟩ := mem_pairUp _ ab hab
    obtain ⟨ha1, _⟩ := crossing_bounds poly (ys : ℚ) ab.1 hcq1
    obtain ⟨_, hb2⟩ := crossing_bounds poly (ys : ℚ) ab.2 hcq2
    simp only [interiorSpan] at hri
    split at hri
    case isTrue hspan =>
      simp only [List.mem_singleton] at hri
      subst hri
      simp only [Region.covers, Bool.and_eq_true, decide_eq_true_eq] at hc
      obtain ⟨⟨hyy, hx1⟩, hx2⟩ := hc
      subst hyy
      have hxq1 : ((⌊ab.1 + 1/2⌋ + 1 : ℤ) : ℚ) ≤ (x:ℚ) := by exact_mod_cast hx1
      have hxq2 : (x:ℚ) ≤ ((⌈ab.2 - 1/2⌉ - 1 : ℤ) : ℚ) := by exact_mod_cast hx2
      push_cast at hxq1 hxq2
      have hf1 : (ab.1 + 1/2) - 1 < (⌊ab.1 + 1/2⌋ : ℚ) := Int.sub_one_lt_floor _
      have hf2 : (⌈ab.2 - 1/2⌉ : ℚ) < (ab.2 - 1/2) + 1 := Int.ceil_lt_add_one _
      refine ⟨floor_le_of_half (by linarith), le_ceil_of_half (by linarith), ?_, ?_⟩
      · exact le_trans (Int.floor_le_ceil _) hylo
      · exact le_trans hyhi (Int.floor_le_ceil _)
    case isFalse => simp at hri
  · obtain ⟨hc1, hc2⟩ := crossing_bounds poly (ys : ℚ) cq hcq
    simp only [boundarySpan, List.mem_map] at hrb
    obtain ⟨bx, hbx, rfl⟩ := hrb
    simp only [Region.covers, Bool.and_eq_true, decide_eq_true_eq] at hc
    obtain ⟨rfl, rfl⟩ := hc
    obtain ⟨hblo, hbhi⟩ := mem_intsFromTo hbx
    have hbq1 : ((⌈cq - 1/2⌉ : ℤ) : ℚ) ≤ (bx:ℚ) := by exact_mod_cast hblo
    have hbq2 : (bx:ℚ) ≤ ((⌊cq + 1/2⌋ : ℤ) : ℚ) := by exact_mod_cast hbhi
    have hf1 : (cq - 1/2 : ℚ) ≤ (⌈cq - 1/2⌉ : ℚ) := Int.le_ceil _
    have hf2 : (⌊cq + 1/2⌋ : ℚ) ≤ (cq + 1/2 : ℚ) := Int.floor_le _
    refine ⟨floor_le_of_half (by linarith), le_ceil_of_half (by linarith), ?_, ?_⟩
    · exact le_trans (Int.floor_le_ceil _) hylo
    · exact le_trans hyhi (Int.floor_le_ceil _)

/-- C5 witness: the containment theorem applied to a Boundary region the
rasterizer emits for `tinyTriangle`, covering pixel (0, 0). -/
theorem C5_regions_within_bbox_witness :
    (Region.Boundary 0 0 ∈ regionList tinyTriangle ∧
      (Region.Boundary 0 0).covers 0 0 = true) ∧
    (⌊min_x tinyTriangle⌋ ≤ 0 ∧ (0:ℤ) ≤ ⌈max_x tinyTriangle⌉ ∧
      ⌊min_y tinyTriangle⌋ ≤ 0 ∧ (0:ℤ) ≤ ⌈max_y tinyTriangle⌉) :=
  ⟨⟨by with_unfolding_all decide, by with_unfolding_all decide⟩,
    C5_regions_within_bbox tinyTriangle (Region.Boundary 0 0) 0 0
      (by with_unfolding_all decide) (by with_unfolding_all decide)⟩

end Valora
